import Mathlib

/-!
Shallow embedding of the raster drawing engine in
`src/components/DrawingCanvas.tsx` (a React canvas component), together with
proofs of the specified properties of its color model, flood fill, undo
history, shape preview and pointer-gesture handlers.

Modelling conventions:
* An `ImageData` pixel buffer is an `Image`: a width, a height and a map from
  flat pixel index (`y * width + x`) to an `RGBA` quadruple of `Nat` channel
  values (the source indexes a flat byte array at offset `(y*width+x)*4`).
* JavaScript numbers that hold pointer coordinates are modelled as `ℚ`
  (pointer coordinates are fractional); pixel coordinates inside the flood
  fill are `Int` (the source lets `x - 1` go negative and checks `x < 0`).
* The device-pixel-ratio / canvas scale is modelled as 1, so
  `getPixelCoordinates` is `Math.floor` on each coordinate.
* Opaque browser rasterisation calls (`ctx.stroke`, `ctx.strokeRect`,
  `ctx.ellipse`, path strokes for pencil/eraser) are abstract buffer
  transformations bundled in a `Canvas2D` structure; all theorems hold for
  every such bundle.
-/

namespace DrawingCanvas

/-- An RGBA color, each channel a byte value 0–255 in the source
(`ImageData` channels / the result of `hexToRgba`). -/
structure RGBA where
  r : Nat
  g : Nat
  b : Nat
  a : Nat
deriving DecidableEq

/-- The `colorsMatch(a, b, tolerance)` helper of the source:
`Math.abs(a[0] - b.r) <= tolerance && …` over all four channels
(the source's default tolerance is 26; every call site uses that default,
and we pass it explicitly). The tolerance is a JavaScript number, modelled
as `Int`. -/
def colorsMatch (a b : RGBA) (tolerance : Int) : Bool :=
  decide ((((a.r : Int) - (b.r : Int)).natAbs : Int) ≤ tolerance) &&
  decide ((((a.g : Int) - (b.g : Int)).natAbs : Int) ≤ tolerance) &&
  decide ((((a.b : Int) - (b.b : Int)).natAbs : Int) ≤ tolerance) &&
  decide ((((a.a : Int) - (b.a : Int)).natAbs : Int) ≤ tolerance)

theorem colorsMatch_symm (a b : RGBA) (t : Int) :
    colorsMatch a b t = colorsMatch b a t := by
  have h : ∀ x y : Int, (x - y).natAbs = (y - x).natAbs := by
    intro x y
    omega
  simp only [colorsMatch]
  rw [h (a.r : Int) (b.r : Int), h (a.g : Int) (b.g : Int),
    h (a.b : Int) (b.b : Int), h (a.a : Int) (b.a : Int)]

theorem colorsMatch_refl (c : RGBA) (t : Int) (ht : 0 ≤ t) :
    colorsMatch c c t = true := by
  simp [colorsMatch, ht]

/-- Value of a single hexadecimal digit character, `none` for a
non-hex-digit.  Models the per-character digit handling of
`Number.parseInt(s, 16)` via character codes: digits are code points
48–57, lowercase `a`–`f` are 97–102, uppercase `A`–`F` are 65–70. -/
def hexVal? (c : Char) : Option Nat :=
  let n := c.toNat
  if 48 ≤ n ∧ n ≤ 57 then some (n - 48)
  else if 97 ≤ n ∧ n ≤ 102 then some (n - 87)
  else if 65 ≤ n ∧ n ≤ 70 then some (n - 55)
  else none

theorem hexVal?_lt_16 (c : Char) (v : Nat) (h : hexVal? c = some v) : v < 16 := by
  unfold hexVal? at h
  simp only [] at h
  split at h <;> (try split at h) <;> (try split at h) <;> simp_all <;> omega

/-- Model of `hex.replace("#", "")`: JavaScript `String.replace` with a
string pattern removes only the first occurrence of `"#"`. -/
def removeFirstHash : List Char → List Char
  | [] => []
  | c :: cs => if c = '#' then cs else c :: removeFirstHash cs

theorem removeFirstHash_of_no_hash (cs : List Char) (h : ∀ c ∈ cs, c ≠ '#') :
    removeFirstHash cs = cs := by
  induction cs with
  | nil => rfl
  | cons c cs ih =>
    have hc : c ≠ '#' := h c (List.mem_cons_self c cs)
    simp only [removeFirstHash, if_neg hc, List.cons.injEq, true_and]
    exact ih fun d hd => h d (List.mem_cons_of_mem c hd)

/-- Model of `Number.parseInt(s, 16)`: parse the longest leading run of hex
digits; `none` models the `NaN` result when no leading digit exists. -/
def parseIntHex (cs : List Char) : Option Nat :=
  let digits := cs.takeWhile (fun c => (hexVal? c).isSome)
  if digits.isEmpty then none
  else some (digits.foldl (fun acc c => 16 * acc + (hexVal? c).getD 0) 0)

/-- The `hexToRgba` helper of the source.  Strips the first `"#"`, parses the
rest as one base-16 integer (bitwise operations treat `NaN` as 0, hence
`getD 0`), then unpacks either three nibbles (3-digit form) or three bytes
(any other length, which is the 6-digit path). -/
def hexToRgba (hex : List Char) : RGBA :=
  let normalized := removeFirstHash hex
  let bigint := (parseIntHex normalized).getD 0
  if normalized.length = 3 then
    let r := (bigint >>> 8) &&& 0xf
    let g := (bigint >>> 4) &&& 0xf
    let b := bigint &&& 0xf
    { r := (r <<< 4) ||| r, g := (g <<< 4) ||| g, b := (b <<< 4) ||| b, a := 255 }
  else
    { r := (bigint >>> 16) &&& 255, g := (bigint >>> 8) &&& 255,
      b := bigint &&& 255, a := 255 }

theorem hexVal?_ne_hash (c : Char) (v : Nat) (h : hexVal? c = some v) : c ≠ '#' := by
  intro hc
  subst hc
  have hnone : hexVal? '#' = none := rfl
  rw [hnone] at h
  exact Option.noConfusion h

theorem takeWhile_hex_of_all (cs : List Char) (h : ∀ c ∈ cs, (hexVal? c).isSome) :
    cs.takeWhile (fun c => (hexVal? c).isSome) = cs := by
  induction cs with
  | nil => rfl
  | cons c cs ih =>
    have hc : (hexVal? c).isSome = true := h c (List.mem_cons_self c cs)
    simp only [List.takeWhile_cons, hc, if_pos, List.cons.injEq, true_and]
    exact ih fun d hd => h d (List.mem_cons_of_mem c hd)

theorem parseIntHex_cons_digits (cs : List Char)
    (h : ∀ c ∈ cs, (hexVal? c).isSome) (hne : cs ≠ []) :
    parseIntHex cs = some (cs.foldl (fun acc c => 16 * acc + (hexVal? c).getD 0) 0) := by
  simp only [parseIntHex, takeWhile_hex_of_all cs h]
  rw [if_neg]
  simp [List.isEmpty_iff, hne]

theorem nat_and_15 (x : Nat) : x &&& 15 = x % 16 := by
  have h := Nat.and_pow_two_sub_one_eq_mod x 4
  norm_num at h
  exact h

theorem nat_and_255 (x : Nat) : x &&& 255 = x % 256 := by
  have h := Nat.and_pow_two_sub_one_eq_mod x 8
  norm_num at h
  exact h

theorem nat_shr_8 (x : Nat) : x >>> 8 = x / 256 := by
  rw [Nat.shiftRight_eq_div_pow]

theorem nat_shr_4 (x : Nat) : x >>> 4 = x / 16 := by
  rw [Nat.shiftRight_eq_div_pow]

theorem nat_shr_16 (x : Nat) : x >>> 16 = x / 65536 := by
  rw [Nat.shiftRight_eq_div_pow]

theorem expand_nibble_le (v : Nat) (hv : v < 16) : (v <<< 4) ||| v ≤ 255 := by
  revert hv
  revert v
  decide

theorem hexToRgba_three (pre : Bool) (c1 c2 c3 : Char) (v1 v2 v3 : Nat)
    (h1 : hexVal? c1 = some v1) (h2 : hexVal? c2 = some v2)
    (h3 : hexVal? c3 = some v3) :
    hexToRgba ((if pre then ['#'] else []) ++ [c1, c2, c3]) =
      { r := (v1 <<< 4) ||| v1, g := (v2 <<< 4) ||| v2,
        b := (v3 <<< 4) ||| v3, a := 255 } := by
  have b1 := hexVal?_lt_16 c1 v1 h1
  have b2 := hexVal?_lt_16 c2 v2 h2
  have b3 := hexVal?_lt_16 c3 v3 h3
  have hnorm : removeFirstHash ((if pre then ['#'] else []) ++ [c1, c2, c3]) =
      [c1, c2, c3] := by
    cases pre
    · simp only [if_neg, List.nil_append, Bool.false_eq_true, not_false_iff]
      apply removeFirstHash_of_no_hash
      intro c hc
      simp only [List.mem_cons, List.not_mem_nil, or_false] at hc
      rcases hc with h | h | h
      · exact h ▸ hexVal?_ne_hash c1 v1 h1
      · exact h ▸ hexVal?_ne_hash c2 v2 h2
      · exact h ▸ hexVal?_ne_hash c3 v3 h3
    · simp [removeFirstHash]
  have hparse : parseIntHex [c1, c2, c3] = some (256 * v1 + 16 * v2 + v3) := by
    rw [parseIntHex_cons_digits _ ?_ (by simp)]
    · simp only [List.foldl_cons, List.foldl_nil, h1, h2, h3, Option.getD_some]
      congr 1
      omega
    · intro c hc
      simp only [List.mem_cons, List.not_mem_nil, or_false] at hc
      rcases hc with h | h | h
      · rw [h, h1]; rfl
      · rw [h, h2]; rfl
      · rw [h, h3]; rfl
  have e1 : ((256 * v1 + 16 * v2 + v3) >>> 8) &&& 15 = v1 := by
    rw [nat_shr_8, nat_and_15]; omega
  have e2 : ((256 * v1 + 16 * v2 + v3) >>> 4) &&& 15 = v2 := by
    rw [nat_shr_4, nat_and_15]; omega
  have e3 : (256 * v1 + 16 * v2 + v3) &&& 15 = v3 := by
    rw [nat_and_15]; omega
  simp only [hexToRgba, hnorm, hparse, Option.getD_some, List.length_cons,
    List.length_nil, if_pos]
  rw [e1, e2, e3]

theorem hexToRgba_six (pre : Bool) (c1 c2 c3 c4 c5 c6 : Char)
    (v1 v2 v3 v4 v5 v6 : Nat)
    (h1 : hexVal? c1 = some v1) (h2 : hexVal? c2 = some v2)
    (h3 : hexVal? c3 = some v3) (h4 : hexVal? c4 = some v4)
    (h5 : hexVal? c5 = some v5) (h6 : hexVal? c6 = some v6) :
    hexToRgba ((if pre then ['#'] else []) ++ [c1, c2, c3, c4, c5, c6]) =
      { r := 16 * v1 + v2, g := 16 * v3 + v4, b := 16 * v5 + v6, a := 255 } := by
  have b1 := hexVal?_lt_16 c1 v1 h1
  have b2 := hexVal?_lt_16 c2 v2 h2
  have b3 := hexVal?_lt_16 c3 v3 h3
  have b4 := hexVal?_lt_16 c4 v4 h4
  have b5 := hexVal?_lt_16 c5 v5 h5
  have b6 := hexVal?_lt_16 c6 v6 h6
  have hnorm : removeFirstHash ((if pre then ['#'] else []) ++ [c1, c2, c3, c4, c5, c6]) =
      [c1, c2, c3, c4, c5, c6] := by
    cases pre
    · simp only [if_neg, List.nil_append, Bool.false_eq_true, not_false_iff]
      apply removeFirstHash_of_no_hash
      intro c hc
      simp only [List.mem_cons, List.not_mem_nil, or_false] at hc
      rcases hc with h | h | h | h | h | h
      · exact h ▸ hexVal?_ne_hash c1 v1 h1
      · exact h ▸ hexVal?_ne_hash c2 v2 h2
      · exact h ▸ hexVal?_ne_hash c3 v3 h3
      · exact h ▸ hexVal?_ne_hash c4 v4 h4
      · exact h ▸ hexVal?_ne_hash c5 v5 h5
      · exact h ▸ hexVal?_ne_hash c6 v6 h6
    · simp [removeFirstHash]
  have hparse : parseIntHex [c1, c2, c3, c4, c5, c6] =
      some (1048576 * v1 + 65536 * v2 + 4096 * v3 + 256 * v4 + 16 * v5 + v6) := by
    rw [parseIntHex_cons_digits _ ?_ (by simp)]
    · simp only [List.foldl_cons, List.foldl_nil, h1, h2, h3, h4, h5, h6,
        Option.getD_some]
      congr 1
      omega
    · intro c hc
      simp only [List.mem_cons, List.not_mem_nil, or_false] at hc
      rcases hc with h | h | h | h | h | h
      · rw [h, h1]; rfl
      · rw [h, h2]; rfl
      · rw [h, h3]; rfl
      · rw [h, h4]; rfl
      · rw [h, h5]; rfl
      · rw [h, h6]; rfl
  have e1 : ((1048576 * v1 + 65536 * v2 + 4096 * v3 + 256 * v4 + 16 * v5 + v6) >>> 16)
      &&& 255 = 16 * v1 + v2 := by
    rw [nat_shr_16, nat_and_255]; omega
  have e2 : ((1048576 * v1 + 65536 * v2 + 4096 * v3 + 256 * v4 + 16 * v5 + v6) >>> 8)
      &&& 255 = 16 * v3 + v4 := by
    rw [nat_shr_8, nat_and_255]; omega
  have e3 : (1048576 * v1 + 65536 * v2 + 4096 * v3 + 256 * v4 + 16 * v5 + v6)
      &&& 255 = 16 * v5 + v6 := by
    rw [nat_and_255]; omega
  simp only [hexToRgba, hnorm, hparse, Option.getD_some, List.length_cons,
    List.length_nil]
  rw [if_neg (by omega)]
  rw [e1, e2, e3]

/-- A pixel buffer (`ImageData`): dimensions plus a map from flat index
`y * width + x` to the pixel color (the source stores 4 bytes per pixel at
offset `(y * width + x) * 4`). -/
structure Image where
  width : Nat
  height : Nat
  data : Nat → RGBA

/-- Flat index of a pixel coordinate, `y * width + x` as in the source
(meaningful for in-bounds coordinates, whose components are non-negative). -/
def idxP (width : Nat) (p : Int × Int) : Nat :=
  p.2.toNat * width + p.1.toNat

/-- In-bounds predicate, the negation of the source's skip test
`x < 0 || x >= width || y < 0 || y >= height`. -/
def inB (width height : Nat) (p : Int × Int) : Prop :=
  0 ≤ p.1 ∧ p.1 < (width : Int) ∧ 0 ≤ p.2 ∧ p.2 < (height : Int)

instance (width height : Nat) (p : Int × Int) : Decidable (inB width height p) := by
  unfold inB
  infer_instance

/-- Pointwise update of a map at one index; models a write into the flat
`data` / `visited` arrays. -/
def updF {α : Type} (f : Nat → α) (i : Nat) (x : α) : Nat → α :=
  fun j => if j = i then x else f j

theorem updF_same {α : Type} (f : Nat → α) (i : Nat) (x : α) : updF f i x i = x := by
  simp [updF]

theorem updF_other {α : Type} (f : Nat → α) (i j : Nat) (x : α) (h : j ≠ i) :
    updF f i x j = f j := by
  simp [updF, h]

theorem idxP_lt (width height : Nat) (p : Int × Int)
    (h1 : 0 ≤ p.1) (h2 : p.1 < (width : Int)) (h3 : 0 ≤ p.2) (h4 : p.2 < (height : Int)) :
    idxP width p < width * height := by
  unfold idxP
  have hx : p.1.toNat < width := by omega
  have hy : p.2.toNat < height := by omega
  calc p.2.toNat * width + p.1.toNat < p.2.toNat * width + width := by omega
    _ = (p.2.toNat + 1) * width := by ring
    _ ≤ height * width := Nat.mul_le_mul_right width (by omega)
    _ = width * height := Nat.mul_comm height width

theorem idxP_inj (width height : Nat) (p q : Int × Int)
    (hp : inB width height p) (hq : inB width height q)
    (h : idxP width p = idxP width q) : p = q := by
  obtain ⟨hp1, hp2, hp3, hp4⟩ := hp
  obtain ⟨hq1, hq2, hq3, hq4⟩ := hq
  unfold idxP at h
  have hx : p.1.toNat < width := by omega
  have hx' : q.1.toNat < width := by omega
  have hmod : p.1.toNat = q.1.toNat := by
    have e1 : (p.2.toNat * width + p.1.toNat) % width = p.1.toNat := by
      rw [Nat.mul_comm, Nat.mul_add_mod]
      exact Nat.mod_eq_of_lt hx
    have e2 : (q.2.toNat * width + q.1.toNat) % width = q.1.toNat := by
      rw [Nat.mul_comm, Nat.mul_add_mod]
      exact Nat.mod_eq_of_lt hx'
    rw [← e1, ← e2, h]
  have hdiv : p.2.toNat = q.2.toNat := by
    have hw : 0 < width := by omega
    have e1 : (p.2.toNat * width + p.1.toNat) / width = p.2.toNat := by
      rw [Nat.mul_comm p.2.toNat width, Nat.mul_add_div hw, Nat.div_eq_of_lt hx]
      omega
    have e2 : (q.2.toNat * width + q.1.toNat) / width = q.2.toNat := by
      rw [Nat.mul_comm q.2.toNat width, Nat.mul_add_div hw, Nat.div_eq_of_lt hx']
      omega
    rw [← e1, ← e2, h]
  have : p.1 = q.1 := by omega
  have : p.2 = q.2 := by omega
  exact Prod.ext ‹p.1 = q.1› ‹p.2 = q.2›

/-- Number of in-range indices not yet visited; termination measure
component for the flood-fill worklist loop. -/
def unvisitedCount (width height : Nat) (visited : Nat → Bool) : Nat :=
  ((Finset.range (width * height)).filter (fun i => visited i = false)).card

theorem unvisitedCount_update_lt (width height : Nat) (visited : Nat → Bool)
    (i : Nat) (hi : i < width * height) (hv : visited i = false) :
    unvisitedCount width height (updF visited i true) < unvisitedCount width height visited := by
  unfold unvisitedCount
  apply Finset.card_lt_card
  constructor
  · intro j hj
    simp only [Finset.mem_filter, Finset.mem_range] at hj ⊢
    refine ⟨hj.1, ?_⟩
    have := hj.2
    by_cases hji : j = i
    · subst hji
      rw [updF_same] at this
      exact absurd this (by simp)
    · rw [updF_other _ _ _ _ hji] at this
      exact this
  · intro hsub
    have hmem : i ∈ (Finset.range (width * height)).filter (fun j => visited j = false) := by
      simp [Finset.mem_filter, Finset.mem_range, hi, hv]
    have := hsub hmem
    simp only [Finset.mem_filter, Finset.mem_range, updF_same] at this
    exact absurd this.2 (by simp)

/-- The worklist loop of `floodFill`.  The stack is modelled top-first (a JS
`Array` push/pop works at the end; here the list head is the top, so the four
neighbor pushes appear in reverse source order, `(x, y-1)` topmost).  Each
iteration mirrors the source: pop, skip when out of bounds / visited / not
matching the target color (tolerance 26), otherwise mark visited, overwrite
the pixel with the fill color and push the four neighbors.  `writes` is
instrumentation recording each `setPixel` call, newest first, so that
"repainted exactly once" is provable; the source performs the same writes
without recording them. -/
def floodLoop (width height : Nat) (fillColor targetColor : RGBA)
    (stack : List (Int × Int)) (visited : Nat → Bool) (data : Nat → RGBA)
    (writes : List (Int × Int)) : (Nat → RGBA) × List (Int × Int) :=
  match stack with
  | [] => (data, writes)
  | p :: rest =>
    if hb : p.1 < 0 ∨ (width : Int) ≤ p.1 ∨ p.2 < 0 ∨ (height : Int) ≤ p.2 then
      floodLoop width height fillColor targetColor rest visited data writes
    else
      if hv : visited (idxP width p) = true then
        floodLoop width height fillColor targetColor rest visited data writes
      else
        if hm : colorsMatch (data (idxP width p)) targetColor 26 = false then
          floodLoop width height fillColor targetColor rest visited data writes
        else
          floodLoop width height fillColor targetColor
            ((p.1, p.2 - 1) :: (p.1, p.2 + 1) :: (p.1 - 1, p.2) :: (p.1 + 1, p.2) :: rest)
            (updF visited (idxP width p) true)
            (updF data (idxP width p) fillColor)
            (p :: writes)
termination_by 5 * unvisitedCount width height visited + stack.length
decreasing_by
  · simp only [List.length_cons]
    omega
  · simp only [List.length_cons]
    omega
  · simp only [List.length_cons]
    omega
  · have hlt : idxP width p < width * height := by
      push_neg at hb
      exact idxP_lt width height p hb.1 hb.2.1 hb.2.2.1 hb.2.2.2
    have hvf : visited (idxP width p) = false := by
      revert hv
      cases visited (idxP width p) <;> simp
    have hdec := unvisitedCount_update_lt width height visited (idxP width p) hlt hvf
    simp only [List.length_cons]
    omega

/-- The `floodFill` routine of the source, acting on a buffer-space pixel
coordinate.  Reads the target color at the seed, returns the buffer unchanged
when the target already matches the fill color under tolerance 26, and
otherwise runs the worklist loop on a working copy committed once at the end.
The second component is the write-instrumentation list of `floodLoop`. -/
def floodFill (img : Image) (pixelPoint : Int × Int) (fillColor : RGBA) :
    Image × List (Int × Int) :=
  let targetColor := img.data (idxP img.width pixelPoint)
  if colorsMatch targetColor fillColor 26 then (img, [])
  else
    let res := floodLoop img.width img.height fillColor targetColor
      [pixelPoint] (fun _ => false) img.data []
    ({ img with data := res.1 }, res.2)

/-- Adjacency (4-connectedness): `q` is one of the four neighbors the loop pushes for
`p` (`x±1, y` and `x, y±1`). -/
def adjacent (p q : Int × Int) : Prop :=
  q = (p.1 + 1, p.2) ∨ q = (p.1 - 1, p.2) ∨ q = (p.1, p.2 + 1) ∨ q = (p.1, p.2 - 1)

/-- A pixel the fill may repaint: in bounds, and its color in the original
data `d0` matches the target color under tolerance 26. -/
def matchesT (width height : Nat) (d0 : Nat → RGBA) (target : RGBA) (p : Int × Int) : Prop :=
  inB width height p ∧ colorsMatch (d0 (idxP width p)) target 26 = true

/-- Reachability from a seed through a 4-connected chain of pixels that all
match the target color in the original data: the "4-connected component"
of the specification. -/
inductive Reach (width height : Nat) (d0 : Nat → RGBA) (target : RGBA) :
    (Int × Int) → (Int × Int) → Prop where
  | refl (p : Int × Int) : matchesT width height d0 target p →
      Reach width height d0 target p p
  | step (p q r : Int × Int) : Reach width height d0 target p q → adjacent q r →
      matchesT width height d0 target r → Reach width height d0 target p r

theorem Reach.matches_end (width height : Nat) (d0 : Nat → RGBA) (target : RGBA)
    (p q : Int × Int) (h : Reach width height d0 target p q) :
    matchesT width height d0 target q := by
  cases h with
  | refl hm => exact hm
  | step _ _ _ _ hm => exact hm

/-- The set of pixels already repainted, read off the `visited` map. -/
def filled (width height : Nat) (visited : Nat → Bool) (p : Int × Int) : Prop :=
  inB width height p ∧ visited (idxP width p) = true

/-- Invariant of the flood-fill worklist loop, relating the stack, the
visited map, the working pixel data and the write log to the original data
`d0` and the seed. -/
structure LoopInv (width height : Nat) (fillColor target : RGBA) (d0 : Nat → RGBA)
    (seed : Int × Int) (stack : List (Int × Int)) (visited : Nat → Bool)
    (data : Nat → RGBA) (writes : List (Int × Int)) : Prop where
  sound : ∀ p, filled width height visited p → Reach width height d0 target seed p
  seedIn : ¬ matchesT width height d0 target seed ∨
    filled width height visited seed ∨ seed ∈ stack
  closed : ∀ p q, filled width height visited p → adjacent p q →
    matchesT width height d0 target q → filled width height visited q ∨ q ∈ stack
  stackOrig : ∀ p ∈ stack, p = seed ∨ ∃ q, filled width height visited q ∧ adjacent q p
  dataFill : ∀ p, filled width height visited p →
    data (idxP width p) = fillColor ∧ writes.count p = 1
  dataOrig : ∀ p, inB width height p → ¬ filled width height visited p →
    data (idxP width p) = d0 (idxP width p) ∧ writes.count p = 0

theorem not_oob_iff_inB (width height : Nat) (p : Int × Int) :
    ¬ (p.1 < 0 ∨ (width : Int) ≤ p.1 ∨ p.2 < 0 ∨ (height : Int) ≤ p.2) ↔
    inB width height p := by
  unfold inB
  omega

theorem filled_updF_iff (width height : Nat) (visited : Nat → Bool) (p q : Int × Int)
    (hp : inB width height p) :
    filled width height (updF visited (idxP width p) true) q ↔
    filled width height visited q ∨ q = p := by
  constructor
  · rintro ⟨hqin, hv⟩
    by_cases hidx : idxP width q = idxP width p
    · exact Or.inr (idxP_inj width height q p hqin hp hidx)
    · rw [updF_other _ _ _ _ hidx] at hv
      exact Or.inl ⟨hqin, hv⟩
  · rintro (⟨hqin, hv⟩ | rfl)
    · refine ⟨hqin, ?_⟩
      by_cases hidx : idxP width q = idxP width p
      · rw [hidx, updF_same]
      · rw [updF_other _ _ _ _ hidx]
        exact hv
    · exact ⟨hp, updF_same _ _ _⟩

theorem LoopInv.skip_oob (width height : Nat) (fillColor target : RGBA)
    (d0 : Nat → RGBA) (seed p : Int × Int) (rest : List (Int × Int))
    (visited : Nat → Bool) (data : Nat → RGBA) (writes : List (Int × Int))
    (inv : LoopInv width height fillColor target d0 seed (p :: rest) visited data writes)
    (hb : p.1 < 0 ∨ (width : Int) ≤ p.1 ∨ p.2 < 0 ∨ (height : Int) ≤ p.2) :
    LoopInv width height fillColor target d0 seed rest visited data writes := by
  have hnin : ¬ inB width height p := fun hin =>
    (not_oob_iff_inB width height p).mpr hin hb
  refine ⟨inv.sound, ?_, ?_, ?_, inv.dataFill, inv.dataOrig⟩
  · rcases inv.seedIn with h | h | h
    · exact Or.inl h
    · exact Or.inr (Or.inl h)
    · rcases List.mem_cons.mp h with rfl | h
      · exact Or.inl fun hm => hnin hm.1
      · exact Or.inr (Or.inr h)
  · intro a q ha hadj hq
    rcases inv.closed a q ha hadj hq with h | h
    · exact Or.inl h
    · rcases List.mem_cons.mp h with rfl | h
      · exact absurd hq.1 hnin
      · exact Or.inr h
  · intro a ha
    exact inv.stackOrig a (List.mem_cons_of_mem p ha)

theorem LoopInv.skip_visited (width height : Nat) (fillColor target : RGBA)
    (d0 : Nat → RGBA) (seed p : Int × Int) (rest : List (Int × Int))
    (visited : Nat → Bool) (data : Nat → RGBA) (writes : List (Int × Int))
    (inv : LoopInv width height fillColor target d0 seed (p :: rest) visited data writes)
    (hb : ¬ (p.1 < 0 ∨ (width : Int) ≤ p.1 ∨ p.2 < 0 ∨ (height : Int) ≤ p.2))
    (hv : visited (idxP width p) = true) :
    LoopInv width height fillColor target d0 seed rest visited data writes := by
  have hin : inB width height p := (not_oob_iff_inB width height p).mp hb
  have hfil : filled width height visited p := ⟨hin, hv⟩
  refine ⟨inv.sound, ?_, ?_, ?_, inv.dataFill, inv.dataOrig⟩
  · rcases inv.seedIn with h | h | h
    · exact Or.inl h
    · exact Or.inr (Or.inl h)
    · rcases List.mem_cons.mp h with rfl | h
      · exact Or.inr (Or.inl hfil)
      · exact Or.inr (Or.inr h)
  · intro a q ha hadj hq
    rcases inv.closed a q ha hadj hq with h | h
    · exact Or.inl h
    · rcases List.mem_cons.mp h with rfl | h
      · exact Or.inl hfil
      · exact Or.inr h
  · intro a ha
    exact inv.stackOrig a (List.mem_cons_of_mem p ha)

theorem LoopInv.skip_nomatch (width height : Nat) (fillColor target : RGBA)
    (d0 : Nat → RGBA) (seed p : Int × Int) (rest : List (Int × Int))
    (visited : Nat → Bool) (data : Nat → RGBA) (writes : List (Int × Int))
    (inv : LoopInv width height fillColor target d0 seed (p :: rest) visited data writes)
    (hb : ¬ (p.1 < 0 ∨ (width : Int) ≤ p.1 ∨ p.2 < 0 ∨ (height : Int) ≤ p.2))
    (hv : ¬ visited (idxP width p) = true)
    (hm : colorsMatch (data (idxP width p)) target 26 = false) :
    LoopInv width height fillColor target d0 seed rest visited data writes := by
  have hin : inB width height p := (not_oob_iff_inB width height p).mp hb
  have hnf : ¬ filled width height visited p := fun hf => hv hf.2
  have hdo := inv.dataOrig p hin hnf
  have hnm : ¬ matchesT width height d0 target p := by
    rintro ⟨hin2, hmt⟩
    rw [← hdo.1] at hmt
    rw [hmt] at hm
    exact absurd hm (by simp)
  refine ⟨inv.sound, ?_, ?_, ?_, inv.dataFill, inv.dataOrig⟩
  · rcases inv.seedIn with h | h | h
    · exact Or.inl h
    · exact Or.inr (Or.inl h)
    · rcases List.mem_cons.mp h with rfl | h
      · exact Or.inl hnm
      · exact Or.inr (Or.inr h)
  · intro a q ha hadj hq
    rcases inv.closed a q ha hadj hq with h | h
    · exact Or.inl h
    · rcases List.mem_cons.mp h with rfl | h
      · exact absurd hq hnm
      · exact Or.inr h
  · intro a ha
    exact inv.stackOrig a (List.mem_cons_of_mem p ha)

theorem LoopInv.fill_step (width height : Nat) (fillColor target : RGBA)
    (d0 : Nat → RGBA) (seed p : Int × Int) (rest : List (Int × Int))
    (visited : Nat → Bool) (data : Nat → RGBA) (writes : List (Int × Int))
    (inv : LoopInv width height fillColor target d0 seed (p :: rest) visited data writes)
    (hb : ¬ (p.1 < 0 ∨ (width : Int) ≤ p.1 ∨ p.2 < 0 ∨ (height : Int) ≤ p.2))
    (hv : ¬ visited (idxP width p) = true)
    (hm : ¬ colorsMatch (data (idxP width p)) target 26 = false) :
    LoopInv width height fillColor target d0 seed
      ((p.1, p.2 - 1) :: (p.1, p.2 + 1) :: (p.1 - 1, p.2) :: (p.1 + 1, p.2) :: rest)
      (updF visited (idxP width p) true) (updF data (idxP width p) fillColor)
      (p :: writes) := by
  have hin : inB width height p := (not_oob_iff_inB width height p).mp hb
  have hnf : ¬ filled width height visited p := fun hf => hv hf.2
  have hdo := inv.dataOrig p hin hnf
  have hmatch : matchesT width height d0 target p := by
    refine ⟨hin, ?_⟩
    rw [← hdo.1]
    cases hcm : colorsMatch (data (idxP width p)) target 26
    · exact absurd hcm hm
    · rfl
  have hreach : Reach width height d0 target seed p := by
    rcases inv.stackOrig p (List.mem_cons_self p rest) with rfl | ⟨q, hq, hadj⟩
    · exact Reach.refl p hmatch
    · exact Reach.step seed q p (inv.sound q hq) hadj hmatch
  have hfil' : ∀ q, filled width height (updF visited (idxP width p) true) q ↔
      filled width height visited q ∨ q = p :=
    fun q => filled_updF_iff width height visited p q hin
  have hne_of_filled : ∀ q, filled width height visited q → q ≠ p :=
    fun q hq hqp => hnf (hqp ▸ hq)
  have hidx_ne : ∀ q, inB width height q → q ≠ p → idxP width q ≠ idxP width p :=
    fun q hqin hqp hidx => hqp (idxP_inj width height q p hqin hin hidx)
  refine ⟨?_, ?_, ?_, ?_, ?_, ?_⟩
  · intro q hq
    rcases (hfil' q).mp hq with h | rfl
    · exact inv.sound q h
    · exact hreach
  · rcases inv.seedIn with h | h | h
    · exact Or.inl h
    · exact Or.inr (Or.inl ((hfil' seed).mpr (Or.inl h)))
    · rcases List.mem_cons.mp h with rfl | h
      · exact Or.inr (Or.inl ((hfil' seed).mpr (Or.inr rfl)))
      · refine Or.inr (Or.inr ?_)
        simp only [List.mem_cons]
        tauto
  · intro a q ha hadj hq
    rcases (hfil' a).mp ha with h | rfl
    · rcases inv.closed a q h hadj hq with h2 | h2
      · exact Or.inl ((hfil' q).mpr (Or.inl h2))
      · rcases List.mem_cons.mp h2 with rfl | h2
        · exact Or.inl ((hfil' q).mpr (Or.inr rfl))
        · refine Or.inr ?_
          simp only [List.mem_cons]
          tauto
    · refine Or.inr ?_
      rcases hadj with rfl | rfl | rfl | rfl
      · simp only [List.mem_cons]
        tauto
      · simp only [List.mem_cons]
        tauto
      · simp only [List.mem_cons]
        tauto
      · simp only [List.mem_cons]
        tauto
  · intro a ha
    simp only [List.mem_cons] at ha
    rcases ha with rfl | rfl | rfl | rfl | ha
    · exact Or.inr ⟨p, (hfil' p).mpr (Or.inr rfl), Or.inr (Or.inr (Or.inr rfl))⟩
    · exact Or.inr ⟨p, (hfil' p).mpr (Or.inr rfl), Or.inr (Or.inr (Or.inl rfl))⟩
    · exact Or.inr ⟨p, (hfil' p).mpr (Or.inr rfl), Or.inr (Or.inl rfl)⟩
    · exact Or.inr ⟨p, (hfil' p).mpr (Or.inr rfl), Or.inl rfl⟩
    · rcases inv.stackOrig a (List.mem_cons_of_mem p ha) with h | ⟨q, hq, hadj⟩
      · exact Or.inl h
      · exact Or.inr ⟨q, (hfil' q).mpr (Or.inl hq), hadj⟩
  · intro q hq
    rcases (hfil' q).mp hq with h | rfl
    · have hne := hne_of_filled q h
      have hidx := hidx_ne q h.1 hne
      rw [updF_other _ _ _ _ hidx]
      constructor
      · exact (inv.dataFill q h).1
      · rw [List.count_cons_of_ne hne]
        exact (inv.dataFill q h).2
    · rw [updF_same]
      refine ⟨rfl, ?_⟩
      rw [List.count_cons_self]
      rw [hdo.2]
  · intro q hqin hq
    have hnq : ¬ filled width height visited q := fun hf => hq ((hfil' q).mpr (Or.inl hf))
    have hne : q ≠ p := fun hqp => hq ((hfil' q).mpr (Or.inr hqp))
    have hidx := hidx_ne q hqin hne
    have hdoq := inv.dataOrig q hqin hnq
    rw [updF_other _ _ _ _ hidx]
    refine ⟨hdoq.1, ?_⟩
    rw [List.count_cons_of_ne hne]
    exact hdoq.2

theorem floodLoop_post (width height : Nat) (fillColor target : RGBA)
    (d0 : Nat → RGBA) (seed : Int × Int) (stack : List (Int × Int))
    (visited : Nat → Bool) (data : Nat → RGBA) (writes : List (Int × Int)) :
    LoopInv width height fillColor target d0 seed stack visited data writes →
    ∀ p, inB width height p →
      (Reach width height d0 target seed p →
        (floodLoop width height fillColor target stack visited data writes).1
          (idxP width p) = fillColor ∧
        (floodLoop width height fillColor target stack visited data writes).2.count p = 1) ∧
      (¬ Reach width height d0 target seed p →
        (floodLoop width height fillColor target stack visited data writes).1
          (idxP width p) = d0 (idxP width p) ∧
        (floodLoop width height fillColor target stack visited data writes).2.count p = 0) := by
  induction stack, visited, data, writes using floodLoop.induct width height fillColor target with
  | case1 visited data writes =>
    intro inv p hp
    have hfill : ∀ q, Reach width height d0 target seed q →
        filled width height visited q := by
      intro q hq
      induction hq with
      | refl hm =>
        rcases inv.seedIn with h | h | h
        · exact absurd hm h
        · exact h
        · exact absurd h (List.not_mem_nil seed)
      | step a b hab hadj hmb ih =>
        rcases inv.closed a b ih hadj hmb with h | h
        · exact h
        · exact absurd h (List.not_mem_nil b)
    rw [floodLoop.eq_def]
    constructor
    · intro hre
      exact inv.dataFill p (hfill p hre)
    · intro hnr
      exact inv.dataOrig p hp fun hf => hnr (inv.sound p hf)
  | case2 visited data writes p rest hb ih =>
    intro inv
    have inv2 := LoopInv.skip_oob width height fillColor target d0 seed p rest
      visited data writes inv hb
    rw [floodLoop.eq_def]
    simp only [dif_pos hb]
    exact ih inv2
  | case3 visited data writes p rest hb hv ih =>
    intro inv
    have inv2 := LoopInv.skip_visited width height fillColor target d0 seed p rest
      visited data writes inv hb hv
    rw [floodLoop.eq_def]
    simp only [dif_neg hb, dif_pos hv]
    exact ih inv2
  | case4 visited data writes p rest hb hv hm ih =>
    intro inv
    have inv2 := LoopInv.skip_nomatch width height fillColor target d0 seed p rest
      visited data writes inv hb hv hm
    rw [floodLoop.eq_def]
    simp only [dif_neg hb, dif_neg hv, dif_pos hm]
    exact ih inv2
  | case5 visited data writes p rest hb hv hm ih =>
    intro inv
    have inv2 := LoopInv.fill_step width height fillColor target d0 seed p rest
      visited data writes inv hb hv hm
    rw [floodLoop.eq_def]
    simp only [dif_neg hb, dif_neg hv, dif_neg hm]
    exact ih inv2

theorem floodFill_dims (img : Image) (seed : Int × Int) (fc : RGBA) :
    (floodFill img seed fc).1.width = img.width ∧
    (floodFill img seed fc).1.height = img.height := by
  by_cases h : colorsMatch (img.data (idxP img.width seed)) fc 26 = true
  · simp only [floodFill, h, if_true]
    exact ⟨trivial, trivial⟩
  · simp only [floodFill, if_neg h]
    exact ⟨trivial, trivial⟩

theorem floodFill_spec_aux (img : Image) (seed : Int × Int) (fc : RGBA)
    (hne : colorsMatch (img.data (idxP img.width seed)) fc 26 = false) :
    ∀ p, inB img.width img.height p →
      (Reach img.width img.height img.data (img.data (idxP img.width seed)) seed p →
        (floodFill img seed fc).1.data (idxP img.width p) = fc ∧
        (floodFill img seed fc).2.count p = 1) ∧
      (¬ Reach img.width img.height img.data (img.data (idxP img.width seed)) seed p →
        (floodFill img seed fc).1.data (idxP img.width p) = img.data (idxP img.width p) ∧
        (floodFill img seed fc).2.count p = 0) := by
  have hinv : LoopInv img.width img.height fc (img.data (idxP img.width seed))
      img.data seed [seed] (fun _ => false) img.data [] := by
    refine ⟨?_, ?_, ?_, ?_, ?_, ?_⟩
    · rintro p ⟨hp, hv⟩
      exact absurd hv (by simp)
    · exact Or.inr (Or.inr (List.mem_singleton.mpr rfl))
    · rintro p q ⟨hp, hv⟩ _ _
      exact absurd hv (by simp)
    · intro p hp
      exact Or.inl (List.mem_singleton.mp hp)
    · rintro p ⟨hp, hv⟩
      exact absurd hv (by simp)
    · intro p hp _
      exact ⟨rfl, rfl⟩
  have hpost := floodLoop_post img.width img.height fc (img.data (idxP img.width seed))
    img.data seed [seed] (fun _ => false) img.data [] hinv
  intro p hp
  simp only [floodFill, hne, Bool.false_eq_true, if_false]
  exact hpost p hp

/-- C1: for every buffer and every in-bounds seed whose color does not match
the fill color under tolerance 26, `floodFill` repaints exactly the
4-connected component of pixels matching the seed's original color under
tolerance: every pixel reachable from the seed via 4-connected
tolerance-matching pixels ends up with the fill color and is written exactly
once (its count in the write log is 1), and every pixel outside the
component keeps its original value and is never written. -/
theorem floodFill_repaints_component (img : Image) (seed : Int × Int) (fc : RGBA)
    (_hin : inB img.width img.height seed)
    (hne : colorsMatch (img.data (idxP img.width seed)) fc 26 = false) :
    ∀ p, inB img.width img.height p →
      (Reach img.width img.height img.data (img.data (idxP img.width seed)) seed p →
        (floodFill img seed fc).1.data (idxP img.width p) = fc ∧
        (floodFill img seed fc).2.count p = 1) ∧
      (¬ Reach img.width img.height img.data (img.data (idxP img.width seed)) seed p →
        (floodFill img seed fc).1.data (idxP img.width p) = img.data (idxP img.width p) ∧
        (floodFill img seed fc).2.count p = 0) :=
  floodFill_spec_aux img seed fc hne

/-- Fully opaque white, the clear/background color (`#ffffff` on an opaque
canvas). -/
def whiteRGBA : RGBA := ⟨255, 255, 255, 255⟩

/-- Pure green, a fill color for concrete checks. -/
def greenRGBA : RGBA := ⟨0, 255, 0, 255⟩

/-- A concrete 1×1 all-white buffer for concrete checks. -/
def img1 : Image := ⟨1, 1, fun _ => whiteRGBA⟩

theorem floodFill_repaints_component_witness :
    (floodFill img1 (0, 0) greenRGBA).1.data (idxP img1.width (0, 0)) = greenRGBA ∧
    (floodFill img1 (0, 0) greenRGBA).2.count (0, 0) = 1 :=
  (floodFill_repaints_component img1 (0, 0) greenRGBA (by decide) (by decide)
    (0, 0) (by decide)).1
    (Reach.refl (0, 0) ⟨by decide, by decide⟩)

theorem floodFill_matched_eq (img : Image) (seed : Int × Int) (fc : RGBA)
    (hm : colorsMatch (img.data (idxP img.width seed)) fc 26 = true) :
    floodFill img seed fc = (img, []) := by
  simp only [floodFill, hm, if_true]

/-- C7: when the color at an in-bounds seed already matches the fill color
under tolerance 26, the flood fill is a no-op that leaves every pixel
unchanged (it returns the buffer as-is with an empty write log);
consequently performing the same fill at the same seed twice in a row
produces the same buffer as performing it once. -/
theorem floodFill_noop_and_idempotent (img : Image) (p : Int × Int) (fc : RGBA) :
    (colorsMatch (img.data (idxP img.width p)) fc 26 = true →
      floodFill img p fc = (img, [])) ∧
    (inB img.width img.height p →
      (floodFill (floodFill img p fc).1 p fc).1 = (floodFill img p fc).1) := by
  constructor
  · exact floodFill_matched_eq img p fc
  · intro hp
    by_cases hm : colorsMatch (img.data (idxP img.width p)) fc 26 = true
    · rw [floodFill_matched_eq img p fc hm]
      rw [floodFill_matched_eq img p fc hm]
    · have hne : colorsMatch (img.data (idxP img.width p)) fc 26 = false := by
        cases hcm : colorsMatch (img.data (idxP img.width p)) fc 26
        · rfl
        · exact absurd hcm hm
      have hreach : Reach img.width img.height img.data
          (img.data (idxP img.width p)) p p :=
        Reach.refl p ⟨hp, colorsMatch_refl _ 26 (by decide)⟩
      have hfc : (floodFill img p fc).1.data (idxP img.width p) = fc :=
        ((floodFill_spec_aux img p fc hne p hp).1 hreach).1
      have hw := floodFill_dims img p fc
      have hm2 : colorsMatch
          ((floodFill img p fc).1.data (idxP (floodFill img p fc).1.width p)) fc 26 = true := by
        rw [hw.1, hfc]
        exact colorsMatch_refl fc 26 (by decide)
      rw [floodFill_matched_eq (floodFill img p fc).1 p fc hm2]

theorem floodFill_noop_and_idempotent_witness :
    floodFill img1 (0, 0) whiteRGBA = (img1, []) ∧
    (floodFill (floodFill img1 (0, 0) whiteRGBA).1 (0, 0) whiteRGBA).1 =
      (floodFill img1 (0, 0) whiteRGBA).1 :=
  ⟨(floodFill_noop_and_idempotent img1 (0, 0) whiteRGBA).1 (by decide),
   (floodFill_noop_and_idempotent img1 (0, 0) whiteRGBA).2 (by decide)⟩

/-- The body of `pushSnapshotForUndo` acting on the history list alone:
`if (history.length >= 25) history.shift(); history.push(snapshot)`.
Index 0 is the oldest snapshot, the last element the newest. -/
def pushSnapshot (history : List Image) (snapshot : Image) : List Image :=
  (if 25 ≤ history.length then history.drop 1 else history) ++ [snapshot]

/-- The drawing tools of the source (`DrawingTool` union type). -/
inductive DrawingTool where
  | pencil
  | eraser
  | line
  | rectangle
  | ellipse
  | fill
deriving DecidableEq

/-- The mutable refs of the component that the claims are about: the live
buffer (canvas contents), the undo history (`historyRef`), the drawing flag
(`isDrawingRef`) and the shape-gesture refs (`shapeStartRef`,
`shapeSnapshotRef`).  Pointer coordinates are display-space rationals. -/
structure CanvasState where
  buffer : Image
  history : List Image
  isDrawing : Bool
  shapeStart : Option (ℚ × ℚ)
  shapeSnapshot : Option Image

/-- Model of `pushSnapshotForUndo`: capture a full snapshot of the buffer and push it
(evicting the oldest entry at capacity 25), returning the snapshot; the
`captureOk` flag models whether `getImageData` succeeds — on failure (the
`catch` branch) nothing is pushed and `null` is returned. -/
def pushSnapshotForUndo (captureOk : Bool) (st : CanvasState) :
    Option Image × CanvasState :=
  if captureOk then
    (some st.buffer, { st with history := pushSnapshot st.history st.buffer })
  else
    (none, st)

/-- The undo action of the `undoSignal` effect: `history.pop()` (remove the
last, i.e. most recent, snapshot; `undefined` on an empty array leaves it
empty) and, when a snapshot was obtained, write it back into the buffer
verbatim (`clearRect` + `putImageData` replace the whole contents). -/
def undoCanvas (st : CanvasState) : CanvasState :=
  match st.history.getLast? with
  | none => st
  | some previous => { st with history := st.history.dropLast, buffer := previous }

/-- Body of the `clearSignal` effect: it has no guard on the signal value, so it
also runs for the initial value 0 (at mount).  It fills the whole buffer with
opaque white (`clearRect` then `fillRect` with `#ffffff`) and empties the
undo history. -/
def clearEffect (_clearSignal : Nat) (st : CanvasState) : CanvasState :=
  { st with buffer := { st.buffer with data := fun _ => whiteRGBA }, history := [] }

/-- Body of the `undoSignal` effect: returns early when the signal is 0 (the
initial value, i.e. at mount), otherwise performs one undo. -/
def undoEffect (undoSignal : Nat) (st : CanvasState) : CanvasState :=
  if undoSignal = 0 then st else undoCanvas st

/-- Opaque browser rasterisation primitives (`CanvasRenderingContext2D`
calls whose pixel output the source does not compute itself).  Each takes the
stroke color (a hex string), the line width, its geometry, and transforms the
buffer.  `strokeTo` models a `lineTo(p)`/`stroke()` step of a pencil/eraser
path (the Bool is the eraser flag, i.e. `destination-out` compositing). -/
structure Canvas2D where
  strokeLine : List Char → ℚ → (ℚ × ℚ) → (ℚ × ℚ) → Image → Image
  strokeRect : List Char → ℚ → (ℚ × ℚ) → ℚ → ℚ → Image → Image
  strokeEllipse : List Char → ℚ → (ℚ × ℚ) → ℚ → ℚ → Image → Image
  strokeTo : Bool → List Char → ℚ → (ℚ × ℚ) → Image → Image

/-- Model of `getPixelCoordinates` with unit scale: `Math.floor(point.x * scaleX)` on
each coordinate (the scale factors `canvas.width / rect.width` are modelled
as 1, i.e. device-pixel-ratio 1). -/
def getPixelCoordinates (point : ℚ × ℚ) : Int × Int :=
  (⌊point.1⌋, ⌊point.2⌋)

/-- Model of `drawPreviewShape(current)`: bail out when no gesture start is recorded;
otherwise restore the gesture-start snapshot when one exists (`restoreSnapshot`
returns early on `null`), then stroke the shape determined by the active tool
between the start and the current point with the active color and brush
size.  For non-shape tools nothing is drawn after the restore. -/
def drawPreviewShape (k : Canvas2D) (tool : DrawingTool) (color : List Char)
    (brushSize : ℚ) (start : Option (ℚ × ℚ)) (snapshot : Option Image)
    (buffer : Image) (current : ℚ × ℚ) : Image :=
  match start with
  | none => buffer
  | some s =>
    let base := match snapshot with
      | none => buffer
      | some snap => snap
    let width := current.1 - s.1
    let height := current.2 - s.2
    if tool = DrawingTool.line then
      k.strokeLine color brushSize s current base
    else if tool = DrawingTool.rectangle then
      k.strokeRect color brushSize s width height base
    else if tool = DrawingTool.ellipse then
      k.strokeEllipse color brushSize
        (s.1 + width / 2, s.2 + height / 2) (|width| / 2) (|height| / 2) base
    else
      base

/-- Model of `stopDrawing`: end the gesture — reset the drawing flag and drop the
shape-gesture refs (composite-mode restoration has no pixel effect here). -/
def stopDrawing (st : CanvasState) : CanvasState :=
  { st with isDrawing := false, shapeStart := none, shapeSnapshot := none }

/-- Model of `handlePointerDown`: push an undo snapshot first; for the fill tool run
the flood fill at the pixel coordinates of the point (converting the color
prop with `hexToRgba`) and stop; otherwise start drawing — pencil/eraser
stroke a dot at the point, shape tools record the start point and the
snapshot and draw a first preview at the down point. -/
def handlePointerDown (k : Canvas2D) (tool : DrawingTool) (color : List Char)
    (brushSize : ℚ) (captureOk : Bool) (point : ℚ × ℚ) (st : CanvasState) :
    CanvasState :=
  let res := pushSnapshotForUndo captureOk st
  let snapshot := res.1
  let st1 := res.2
  if tool = DrawingTool.fill then
    { st1 with
      buffer := (floodFill st1.buffer (getPixelCoordinates point) (hexToRgba color)).1 }
  else
    let st2 := { st1 with isDrawing := true }
    if tool = DrawingTool.pencil ∨ tool = DrawingTool.eraser then
      { st2 with
        buffer := k.strokeTo (tool = DrawingTool.eraser) color brushSize point st2.buffer }
    else
      let st3 := { st2 with shapeStart := some point, shapeSnapshot := snapshot }
      { st3 with
        buffer := drawPreviewShape k tool color brushSize st3.shapeStart
          st3.shapeSnapshot st3.buffer point }

/-- Model of `handlePointerMove`: inert unless a gesture is active; shape tools
redraw the preview at the current point, pencil/eraser extend and stroke the
path. -/
def handlePointerMove (k : Canvas2D) (tool : DrawingTool) (color : List Char)
    (brushSize : ℚ) (point : ℚ × ℚ) (st : CanvasState) : CanvasState :=
  if st.isDrawing = false then
    st
  else if tool = DrawingTool.line ∨ tool = DrawingTool.rectangle ∨
      tool = DrawingTool.ellipse then
    { st with
      buffer := drawPreviewShape k tool color brushSize st.shapeStart
        st.shapeSnapshot st.buffer point }
  else
    { st with
      buffer := k.strokeTo (tool = DrawingTool.eraser) color brushSize point st.buffer }

/-- Model of `handlePointerUp`: for shape tools perform one final preview render at
the release point (this is the committed result), then `stopDrawing`. -/
def handlePointerUp (k : Canvas2D) (tool : DrawingTool) (color : List Char)
    (brushSize : ℚ) (point : ℚ × ℚ) (st : CanvasState) : CanvasState :=
  let st1 :=
    if tool = DrawingTool.line ∨ tool = DrawingTool.rectangle ∨
        tool = DrawingTool.ellipse then
      { st with
        buffer := drawPreviewShape k tool color brushSize st.shapeStart
          st.shapeSnapshot st.buffer point }
    else
      st
  stopDrawing st1

/-- A concrete 1×1 all-green buffer for concrete checks. -/
def img2 : Image := ⟨1, 1, fun _ => greenRGBA⟩

theorem foldl_pushSnapshot_from_nil (snaps : List Image) :
    snaps.foldl pushSnapshot [] = snaps.drop (snaps.length - 25) := by
  induction snaps using List.reverseRecOn with
  | nil => rfl
  | append_singleton xs x ih =>
    rw [List.foldl_append, List.foldl_cons, List.foldl_nil, ih]
    unfold pushSnapshot
    by_cases hn : 25 ≤ xs.length
    · have hlen : (xs.drop (xs.length - 25)).length = 25 := by
        rw [List.length_drop]
        omega
      rw [if_pos (by omega), List.drop_drop]
      have harith : xs.length - 25 + 1 = xs.length - 24 := by omega
      rw [harith]
      have hle : xs.length - 24 ≤ xs.length := by omega
      have harith2 : (xs ++ [x]).length - 25 = xs.length - 24 := by
        rw [List.length_append]
        simp only [List.length_cons, List.length_nil]
        omega
      rw [harith2, List.drop_append_of_le_length hle]
    · have hlen : (xs.drop (xs.length - 25)).length = xs.length := by
        rw [List.length_drop]
        omega
      rw [if_neg (by omega)]
      have h0 : xs.length - 25 = 0 := by omega
      rw [h0, List.drop_zero]
      have harith2 : (xs ++ [x]).length - 25 = 0 := by
        rw [List.length_append]
        simp only [List.length_cons, List.length_nil]
        omega
      rw [harith2, List.drop_zero]

/-- C2: the undo history is a 25-bounded queue-evicting stack.  Pushing any
sequence of snapshots onto an empty history yields exactly the last 25 of
them in order (so the length never exceeds 25, and after 30 pushes only the
last 25 remain restorable); a push at capacity discards the oldest entry
first; undo removes the most recent entry and restores it into the buffer. -/
theorem undo_history_capacity :
    (∀ snaps : List Image, (snaps.foldl pushSnapshot []).length ≤ 25) ∧
    (∀ snaps : List Image,
      snaps.foldl pushSnapshot [] = snaps.drop (snaps.length - 25)) ∧
    (∀ (h : List Image) (s : Image), 25 ≤ h.length →
      pushSnapshot h s = h.drop 1 ++ [s]) ∧
    (∀ (st : CanvasState) (h : List Image) (s : Image), st.history = h ++ [s] →
      undoCanvas st = { st with history := h, buffer := s }) := by
  refine ⟨?_, foldl_pushSnapshot_from_nil, ?_, ?_⟩
  · intro snaps
    rw [foldl_pushSnapshot_from_nil, List.length_drop]
    omega
  · intro h s hlen
    unfold pushSnapshot
    rw [if_pos hlen]
  · intro st h s hh
    unfold undoCanvas
    rw [hh, List.getLast?_concat, List.dropLast_concat]

theorem undo_history_capacity_witness :
    pushSnapshot (List.replicate 25 img1) img2 =
      (List.replicate 25 img1).drop 1 ++ [img2] ∧
    undoCanvas ⟨img2, [img1], false, none, none⟩ = ⟨img1, [], false, none, none⟩ :=
  ⟨undo_history_capacity.2.2.1 (List.replicate 25 img1) img2
      (by rw [List.length_replicate]),
   undo_history_capacity.2.2.2 ⟨img2, [img1], false, none, none⟩ [] img1 rfl⟩

/-- C4: undo pops the most recent snapshot from the history and writes it
into the buffer verbatim, replacing all contents; with an empty history undo
is a no-op, leaving both the buffer and the history (and all other state)
unchanged. -/
theorem undo_pop_semantics (st : CanvasState) :
    (st.history = [] → undoCanvas st = st) ∧
    (∀ (h : List Image) (s : Image), st.history = h ++ [s] →
      undoCanvas st = { st with history := h, buffer := s }) := by
  constructor
  · intro hh
    unfold undoCanvas
    rw [hh]
    rfl
  · intro h s hh
    unfold undoCanvas
    rw [hh, List.getLast?_concat, List.dropLast_concat]

theorem undo_pop_semantics_witness :
    undoCanvas ⟨img1, [], true, none, none⟩ = ⟨img1, [], true, none, none⟩ ∧
    undoCanvas ⟨img1, [img2, img1], false, none, none⟩ =
      ⟨img1, [img2], false, none, none⟩ :=
  ⟨(undo_pop_semantics ⟨img1, [], true, none, none⟩).1 rfl,
   (undo_pop_semantics ⟨img1, [img2, img1], false, none, none⟩).2 [img2] img1 rfl⟩

/-- C10: the clear effect has no signal guard, so it behaves identically for
the initial signal value 0 (at mount) as for any later value — filling the
buffer with opaque white and emptying the history — whereas the undo effect
returns early on the initial value 0 and performs an undo-pop exactly for
signal values greater than 0. -/
theorem effect_signal_gating :
    (∀ (st : CanvasState) (n : Nat), clearEffect n st = clearEffect 0 st) ∧
    (∀ st : CanvasState, (clearEffect 0 st).history = [] ∧
      ∀ i, (clearEffect 0 st).buffer.data i = whiteRGBA) ∧
    (∀ st : CanvasState, undoEffect 0 st = st) ∧
    (∀ (st : CanvasState) (n : Nat), 0 < n → undoEffect n st = undoCanvas st) := by
  refine ⟨fun st n => rfl, fun st => ⟨rfl, fun i => rfl⟩, fun st => rfl, ?_⟩
  intro st n hn
  unfold undoEffect
  rw [if_neg (by omega)]

theorem effect_signal_gating_witness :
    undoEffect 1 ⟨img1, [img2], false, none, none⟩ =
      undoCanvas ⟨img1, [img2], false, none, none⟩ :=
  effect_signal_gating.2.2.2 ⟨img1, [img2], false, none, none⟩ 1 (by decide)

/-- One shape — determined by the tool, a start point and an end point —
stroked onto a base buffer with the given color and brush width: the
committed result of a shape gesture as the specification describes it
(line from start to end; axis-aligned rectangle spanning start/end; ellipse
inscribed in the bounding box of start/end). -/
def shapeOnBase (k : Canvas2D) (tool : DrawingTool) (color : List Char)
    (brushSize : ℚ) (s e : ℚ × ℚ) (base : Image) : Image :=
  let width := e.1 - s.1
  let height := e.2 - s.2
  if tool = DrawingTool.line then
    k.strokeLine color brushSize s e base
  else if tool = DrawingTool.rectangle then
    k.strokeRect color brushSize s width height base
  else if tool = DrawingTool.ellipse then
    k.strokeEllipse color brushSize
      (s.1 + width / 2, s.2 + height / 2) (|width| / 2) (|height| / 2) base
  else
    base

theorem drawPreviewShape_some (k : Canvas2D) (tool : DrawingTool)
    (color : List Char) (brushSize : ℚ) (s cur : ℚ × ℚ) (snap buf : Image) :
    drawPreviewShape k tool color brushSize (some s) (some snap) buf cur =
      shapeOnBase k tool color brushSize s cur snap := rfl

theorem handlePointerMove_fields (k : Canvas2D) (tool : DrawingTool)
    (color : List Char) (brushSize : ℚ) (p : ℚ × ℚ) (st : CanvasState) :
    (handlePointerMove k tool color brushSize p st).isDrawing = st.isDrawing ∧
    (handlePointerMove k tool color brushSize p st).shapeStart = st.shapeStart ∧
    (handlePointerMove k tool color brushSize p st).shapeSnapshot = st.shapeSnapshot ∧
    (handlePointerMove k tool color brushSize p st).history = st.history := by
  unfold handlePointerMove
  split
  · exact ⟨rfl, rfl, rfl, rfl⟩
  · split
    · exact ⟨rfl, rfl, rfl, rfl⟩
    · exact ⟨rfl, rfl, rfl, rfl⟩

theorem foldl_move_fields (k : Canvas2D) (tool : DrawingTool) (color : List Char)
    (brushSize : ℚ) (moves : List (ℚ × ℚ)) (st : CanvasState) :
    (moves.foldl (fun s p => handlePointerMove k tool color brushSize p s) st).isDrawing =
      st.isDrawing ∧
    (moves.foldl (fun s p => handlePointerMove k tool color brushSize p s) st).shapeStart =
      st.shapeStart ∧
    (moves.foldl (fun s p => handlePointerMove k tool color brushSize p s) st).shapeSnapshot =
      st.shapeSnapshot ∧
    (moves.foldl (fun s p => handlePointerMove k tool color brushSize p s) st).history =
      st.history := by
  induction moves generalizing st with
  | nil => exact ⟨rfl, rfl, rfl, rfl⟩
  | cons m ms ih =>
    simp only [List.foldl_cons]
    have h1 := handlePointerMove_fields k tool color brushSize m st
    have h2 := ih (handlePointerMove k tool color brushSize m st)
    exact ⟨h2.1.trans h1.1, h2.2.1.trans h1.2.1, h2.2.2.1.trans h1.2.2.1,
      h2.2.2.2.trans h1.2.2.2⟩

/-- C3: a shape gesture — pointer-down at a start point, any number of
pointer-moves, pointer-up at a release point, with the gesture-start
snapshot successfully captured — leaves the buffer equal to the pre-gesture
buffer with exactly the one shape determined by (start point, release
point) drawn on it, with no residue from any intermediate preview frame
(each preview restores the gesture-start snapshot before drawing); the
gesture state is destroyed and the undo history holds the extra pre-gesture
snapshot. -/
theorem shape_gesture_commits_final (k : Canvas2D) (tool : DrawingTool)
    (color : List Char) (brushSize : ℚ) (p0 q : ℚ × ℚ) (moves : List (ℚ × ℚ))
    (st0 : CanvasState)
    (htool : tool = DrawingTool.line ∨ tool = DrawingTool.rectangle ∨
      tool = DrawingTool.ellipse) :
    handlePointerUp k tool color brushSize q
      (moves.foldl (fun s p => handlePointerMove k tool color brushSize p s)
        (handlePointerDown k tool color brushSize true p0 st0)) =
    { buffer := shapeOnBase k tool color brushSize p0 q st0.buffer,
      history := pushSnapshot st0.history st0.buffer,
      isDrawing := false, shapeStart := none, shapeSnapshot := none } := by
  have hdown : handlePointerDown k tool color brushSize true p0 st0 =
      { buffer := shapeOnBase k tool color brushSize p0 p0 st0.buffer,
        history := pushSnapshot st0.history st0.buffer,
        isDrawing := true, shapeStart := some p0,
        shapeSnapshot := some st0.buffer } := by
    rcases htool with rfl | rfl | rfl <;> rfl
  have hfold := foldl_move_fields k tool color brushSize moves
    (handlePointerDown k tool color brushSize true p0 st0)
  rw [hdown] at hfold
  unfold handlePointerUp stopDrawing
  rw [if_pos htool, hdown, hfold.2.1, hfold.2.2.1, drawPreviewShape_some,
    hfold.2.2.2]

/-- A trivial rasterisation bundle whose primitives leave the buffer
unchanged, for concrete checks. -/
def kUnit : Canvas2D :=
  ⟨fun _ _ _ _ i => i, fun _ _ _ _ _ i => i, fun _ _ _ _ _ i => i, fun _ _ _ _ i => i⟩

theorem shape_gesture_commits_final_witness :
    handlePointerUp kUnit DrawingTool.line ['f', 'f', 'f'] 2 (1, 1)
      ([((2 : ℚ), (2 : ℚ))].foldl
        (fun s p => handlePointerMove kUnit DrawingTool.line ['f', 'f', 'f'] 2 p s)
        (handlePointerDown kUnit DrawingTool.line ['f', 'f', 'f'] 2 true (0, 0)
          ⟨img1, [], false, none, none⟩)) =
    { buffer := shapeOnBase kUnit DrawingTool.line ['f', 'f', 'f'] 2 (0, 0) (1, 1) img1,
      history := pushSnapshot [] img1,
      isDrawing := false, shapeStart := none, shapeSnapshot := none } :=
  shape_gesture_commits_final kUnit DrawingTool.line ['f', 'f', 'f'] 2 (0, 0) (1, 1)
    [((2 : ℚ), (2 : ℚ))] ⟨img1, [], false, none, none⟩ (Or.inl rfl)

/-- C8: when snapshot capture fails at pointer-down, the push is skipped —
the undo history is left exactly as it was — and the requested operation
still proceeds: the resulting buffer is identical to the one produced when
capture succeeds, for every tool. -/
theorem capture_failure_skips_push (k : Canvas2D) (tool : DrawingTool)
    (color : List Char) (brushSize : ℚ) (point : ℚ × ℚ) (st : CanvasState) :
    (handlePointerDown k tool color brushSize false point st).history = st.history ∧
    (handlePointerDown k tool color brushSize false point st).buffer =
      (handlePointerDown k tool color brushSize true point st).buffer := by
  cases tool <;> exact ⟨rfl, rfl⟩

/-- C9: on every pointer-down with successful capture, exactly one snapshot
of the pre-gesture buffer is pushed before the operation runs, for every
tool; in particular the history grows by one entry (below capacity) even
when the operation is a fill that turns out to be a no-op because the seed
already matches the fill color. -/
theorem pointerdown_always_pushes (k : Canvas2D) (tool : DrawingTool)
    (color : List Char) (brushSize : ℚ) (point : ℚ × ℚ) (st : CanvasState) :
    (handlePointerDown k tool color brushSize true point st).history =
      pushSnapshot st.history st.buffer ∧
    (st.history.length < 25 →
      (handlePointerDown k tool color brushSize true point st).history.length =
        st.history.length + 1) ∧
    (tool = DrawingTool.fill →
      colorsMatch (st.buffer.data (idxP st.buffer.width (getPixelCoordinates point)))
        (hexToRgba color) 26 = true →
      (handlePointerDown k tool color brushSize true point st).buffer = st.buffer) := by
  have h1 : (handlePointerDown k tool color brushSize true point st).history =
      pushSnapshot st.history st.buffer := by
    cases tool <;> rfl
  refine ⟨h1, ?_, ?_⟩
  · intro hlen
    rw [h1]
    unfold pushSnapshot
    rw [if_neg (by omega), List.length_append]
    rfl
  · rintro rfl hm
    show (floodFill st.buffer (getPixelCoordinates point) (hexToRgba color)).1 = st.buffer
    rw [floodFill_matched_eq st.buffer (getPixelCoordinates point) (hexToRgba color) hm]

theorem pointerdown_always_pushes_witness :
    (handlePointerDown kUnit DrawingTool.fill ['f', 'f', 'f'] 2 true (0, 0)
      ⟨img1, [], false, none, none⟩).history = pushSnapshot [] img1 ∧
    (handlePointerDown kUnit DrawingTool.fill ['f', 'f', 'f'] 2 true (0, 0)
      ⟨img1, [], false, none, none⟩).history.length = 1 ∧
    (handlePointerDown kUnit DrawingTool.fill ['f', 'f', 'f'] 2 true (0, 0)
      ⟨img1, [], false, none, none⟩).buffer = img1 := by
  have h := pointerdown_always_pushes kUnit DrawingTool.fill ['f', 'f', 'f'] 2 (0, 0)
    ⟨img1, [], false, none, none⟩
  exact ⟨h.1, h.2.1 (by decide), h.2.2 rfl (by decide)⟩

/-- C5: `colorsMatch a b t` is true exactly when every channel difference
(including alpha) is at most the tolerance in absolute value; it is
symmetric in its two colors for every tolerance, and reflexive for every
non-negative tolerance (in particular the default 26). -/
theorem colorsMatch_characterization :
    (∀ (a b : RGBA) (t : Int), colorsMatch a b t = true ↔
      (|(a.r : Int) - (b.r : Int)| ≤ t ∧ |(a.g : Int) - (b.g : Int)| ≤ t ∧
       |(a.b : Int) - (b.b : Int)| ≤ t ∧ |(a.a : Int) - (b.a : Int)| ≤ t)) ∧
    (∀ (a b : RGBA) (t : Int), colorsMatch a b t = colorsMatch b a t) ∧
    (∀ (c : RGBA) (t : Int), 0 ≤ t → colorsMatch c c t = true) := by
  refine ⟨?_, colorsMatch_symm, colorsMatch_refl⟩
  intro a b t
  simp only [colorsMatch, Bool.and_eq_true, decide_eq_true_eq, Int.abs_eq_natAbs]
  tauto

theorem colorsMatch_characterization_witness :
    colorsMatch whiteRGBA whiteRGBA 26 = true :=
  colorsMatch_characterization.2.2 whiteRGBA 26 (by decide)

/-- C6: for every hex color string in 3- or 6-digit form, with or without a
leading `#`, the parser returns a quadruple with alpha 255 (fully opaque)
and every channel in 0–255; the 3-digit form expands each digit `d` to the
byte `(d <<< 4) ||| d`, and the 6-digit form takes the consecutive digit
pairs as the r, g, b bytes. -/
theorem hexToRgba_forms :
    (∀ (pre : Bool) (c1 c2 c3 : Char) (v1 v2 v3 : Nat),
      hexVal? c1 = some v1 → hexVal? c2 = some v2 → hexVal? c3 = some v3 →
      hexToRgba ((if pre then ['#'] else []) ++ [c1, c2, c3]) =
        { r := (v1 <<< 4) ||| v1, g := (v2 <<< 4) ||| v2,
          b := (v3 <<< 4) ||| v3, a := 255 } ∧
      (v1 <<< 4) ||| v1 ≤ 255 ∧ (v2 <<< 4) ||| v2 ≤ 255 ∧ (v3 <<< 4) ||| v3 ≤ 255) ∧
    (∀ (pre : Bool) (c1 c2 c3 c4 c5 c6 : Char) (v1 v2 v3 v4 v5 v6 : Nat),
      hexVal? c1 = some v1 → hexVal? c2 = some v2 → hexVal? c3 = some v3 →
      hexVal? c4 = some v4 → hexVal? c5 = some v5 → hexVal? c6 = some v6 →
      hexToRgba ((if pre then ['#'] else []) ++ [c1, c2, c3, c4, c5, c6]) =
        { r := 16 * v1 + v2, g := 16 * v3 + v4, b := 16 * v5 + v6, a := 255 } ∧
      16 * v1 + v2 ≤ 255 ∧ 16 * v3 + v4 ≤ 255 ∧ 16 * v5 + v6 ≤ 255) := by
  constructor
  · intro pre c1 c2 c3 v1 v2 v3 h1 h2 h3
    refine ⟨hexToRgba_three pre c1 c2 c3 v1 v2 v3 h1 h2 h3, ?_, ?_, ?_⟩
    · exact expand_nibble_le v1 (hexVal?_lt_16 c1 v1 h1)
    · exact expand_nibble_le v2 (hexVal?_lt_16 c2 v2 h2)
    · exact expand_nibble_le v3 (hexVal?_lt_16 c3 v3 h3)
  · intro pre c1 c2 c3 c4 c5 c6 v1 v2 v3 v4 v5 v6 h1 h2 h3 h4 h5 h6
    have b1 := hexVal?_lt_16 c1 v1 h1
    have b2 := hexVal?_lt_16 c2 v2 h2
    have b3 := hexVal?_lt_16 c3 v3 h3
    have b4 := hexVal?_lt_16 c4 v4 h4
    have b5 := hexVal?_lt_16 c5 v5 h5
    have b6 := hexVal?_lt_16 c6 v6 h6
    refine ⟨hexToRgba_six pre c1 c2 c3 c4 c5 c6 v1 v2 v3 v4 v5 v6 h1 h2 h3 h4 h5 h6,
      by omega, by omega, by omega⟩

theorem hexToRgba_forms_witness :
    hexToRgba ['#', '0', 'f', 'f'] =
      { r := (0 <<< 4) ||| 0, g := (15 <<< 4) ||| 15, b := (15 <<< 4) ||| 15, a := 255 } ∧
    (0 <<< 4) ||| 0 ≤ 255 ∧ (15 <<< 4) ||| 15 ≤ 255 ∧ (15 <<< 4) ||| 15 ≤ 255 :=
  hexToRgba_forms.1 true '0' 'f' 'f' 0 15 15 rfl rfl rfl

end DrawingCanvas
